import Mathlib

/-!
Shallow embedding of the trade surveillance analysis engine of
`src/Surveylance.py` (insider classification, publication-sensitivity
correlation, frequent-trading pattern detection, report building).

Modelling conventions:
* A trade row is a `Trade`; `price` and `quantity` are integers (only equality
  on them is ever used by the code), `time` is an integer count of seconds
  (a `datetime`); the calendar date of a row (`df['Date']`) is the floor of
  `time / 86400`.
* Row identity is the original row index (pandas keeps the original labels
  through filtering); an indexed row is a `ℕ × Trade`, produced by
  `List.enum`.
* `pandas.Timedelta.days` is floor division of the total seconds by 86400,
  which is `Int.fdiv` on the seconds.
* Python `str.lower()` is per-character lowercasing of the character list
  (the strings the code lowers are ASCII side labels).
* The per-run configuration (sidebar date range, the security multiselect,
  and the per-security publication radio buttons) is a `Config` record.
* The module-level registry sets (lines 6-8) are lists of strings;
  the classifier lambda (lines 67-71) is `classify`, abstracted over the
  three sets it closes over, and `watchType` is its instantiation at the
  module-level registries.
-/

/-- A trade row: columns `Client`, `Security`, `Side`, `Price`, `Quantity`,
`Date Time` of the uploaded file. -/
structure Trade where
  client : String
  security : String
  side : String
  price : Int
  quantity : Int
  time : Int
  deriving DecidableEq, Repr

/-- `directors_accounts` (line 6). -/
def directors_accounts : List String :=
  ["ET87CBECETA00002", "ET87CBECETA00003", "ET87CBECETA00000"]

/-- `shareholders_accounts` (line 7). -/
def shareholders_accounts : List String :=
  ["ET10CBECETA01001", "ET10CBECETA01002"]

/-- `board_accounts` (line 8). -/
def board_accounts : List String :=
  ["ET10CBECETA01000", "ET10CBECETA01003"]

/-- The classifier lambda of lines 67-71, abstracted over the three registry
sets it closes over:
`"Director" if x in directors_accounts else "≥5% Shareholder" if x in
shareholders_accounts else "Board Member" if x in board_accounts else None`. -/
def classify (dirs shs brd : List String) (c : String) : Option String :=
  if c ∈ dirs then some "Director"
  else if c ∈ shs then some "≥5% Shareholder"
  else if c ∈ brd then some "Board Member"
  else none

/-- `df['Watch Type']` of one row: the lambda applied to the module-level
registries. -/
def watchType (c : String) : Option String :=
  classify directors_accounts shareholders_accounts board_accounts c

/-- The three radio choices `"None" | "Good" | "Bad"` offered per security
(line 57). -/
inductive Sensitivity
  | sensNone
  | good
  | bad
  deriving DecidableEq, Repr

/-- The `publication_types` dict built at lines 54-59: a security is inserted
with its choice exactly when the choice is not `"None"`; `.get` on the dict
returns `None` for absent keys. -/
def buildPubTypes (choice : String → Sensitivity) (sec : String) : Option String :=
  match choice sec with
  | Sensitivity.sensNone => none
  | Sensitivity.good => some "Good"
  | Sensitivity.bad => some "Bad"

/-- Python `str.lower()`: lowercase each character (the sides compared by the
code are ASCII `Buy`/`Sell` variants). -/
def strLower (s : String) : String := String.mk (s.data.map Char.toLower)

/-- The `Publication Flag` lambda of lines 87-93:
`"Good News Buy Alert" if publication_types.get(sec) == "Good" and
side.lower() == "buy" else "Bad News Sell Alert" if ... == "Bad" and
side.lower() == "sell" else None`. -/
def publicationFlag (pubTypes : String → Option String) (t : Trade) : Option String :=
  if pubTypes t.security = some "Good" ∧ strLower t.side = "buy" then
    some "Good News Buy Alert"
  else if pubTypes t.security = some "Bad" ∧ strLower t.side = "sell" then
    some "Bad News Sell Alert"
  else none

/-- Strict lexicographic comparison of strings by character code, the
comparison `sort_values` uses on the `Client` column. -/
def strLt (a b : String) : Prop := List.Lex (· < ·) a.data b.data

instance : DecidableRel strLt := fun a b =>
  inferInstanceAs (Decidable (List.Lex (· < ·) a.data b.data))

instance charListTri : IsTrichotomous (List Char) (List.Lex (· < ·)) := inferInstance

instance charListTrans : IsTrans (List Char) (List.Lex (· < ·)) := inferInstance

instance charListIrrefl : IsIrrefl (List Char) (List.Lex (· < ·)) := inferInstance

/-- Comparison key order of `sort_values(['Client', 'Date Time'])` (line 99):
lexicographic on (client, time). -/
def tradeLe (a b : ℕ × Trade) : Prop :=
  strLt a.2.client b.2.client ∨ (a.2.client = b.2.client ∧ a.2.time ≤ b.2.time)

instance : DecidableRel tradeLe := fun a b => by
  unfold tradeLe; infer_instance

instance : IsTotal (ℕ × Trade) tradeLe where
  total a b := by
    rcases charListTri.trichotomous a.2.client.data b.2.client.data with h | h | h
    · exact Or.inl (Or.inl h)
    · have e : a.2.client = b.2.client := congrArg String.mk h
      rcases le_total a.2.time b.2.time with ht | ht
      · exact Or.inl (Or.inr ⟨e, ht⟩)
      · exact Or.inr (Or.inr ⟨e.symm, ht⟩)
    · exact Or.inr (Or.inl h)

instance : IsTrans (ℕ × Trade) tradeLe where
  trans a b c hab hbc := by
    rcases hab with h1 | ⟨e1, t1⟩
    · rcases hbc with h2 | ⟨e2, _⟩
      · exact Or.inl (charListTrans.trans _ _ _ h1 h2)
      · exact Or.inl (e2 ▸ h1)
    · rcases hbc with h2 | ⟨e2, t2⟩
      · exact Or.inl (e1 ▸ h2)
      · exact Or.inr ⟨e1.trans e2, le_trans t1 t2⟩

/-- `pandas.Timedelta.days`: floor division of the elapsed seconds by 86400. -/
def daysPart (d : Int) : Int := Int.fdiv d 86400

/-- `abs((t2['Date Time'] - t1['Date Time']).days)` (line 108). -/
def dayDiff (t1 t2 : Int) : Int := |daysPart (t2 - t1)|

/-- The pair test of lines 109-113:
`t1['Price'] == t2['Price'] and t1['Quantity'] == t2['Quantity'] and
t1['Side'].lower() != t2['Side'].lower()`. -/
def matchTest (t1 t2 : Trade) : Bool :=
  decide (t1.price = t2.price) && decide (t1.quantity = t2.quantity) &&
    decide (strLower t1.side ≠ strLower t2.side)

/-- The inner `for j in range(i+1, ...)` loop of lines 105-117 for a fixed
row `a`: scan the rows after it in order; while the day difference is ≤ 3,
on a successful `matchTest` add both identities; on the first day difference
> 3, `break`. Returns the identities added. -/
def innerScan (a : ℕ × Trade) : List (ℕ × Trade) → List ℕ
  | [] => []
  | b :: rest =>
    if dayDiff a.2.time b.2.time ≤ 3 then
      (if matchTest a.2 b.2 then [a.1, b.1] else []) ++ innerScan a rest
    else []

/-- The outer `for i in range(len(client_trades))` loop of line 104: every
row is scanned against the rows after it. -/
def outerScan : List (ℕ × Trade) → List ℕ
  | [] => []
  | a :: rest => innerScan a rest ++ outerScan rest

/-- `client_trades = df_sorted[df_sorted['Client'] == client]` (line 103):
the rows of one client, in sorted order. -/
def clientTrades (c : String) (l : List (ℕ × Trade)) : List (ℕ × Trade) :=
  l.filter (fun p => decide (p.2.client = c))

/-- `df_sorted['Client'].unique()` (line 102): the distinct clients.
(Only membership in this list matters downstream; pandas `unique` enumerates
first occurrences, `dedup` keeps another representative order.) -/
def clientsOf (l : List (ℕ × Trade)) : List String :=
  (l.map (fun p => p.2.client)).dedup

/-- `matched_indices` (lines 100-117): the union over clients of the
identities collected by the nested scan, as a deduplicated list (the Python
`set`). -/
def matchedIndices (sorted : List (ℕ × Trade)) : List ℕ :=
  (((clientsOf sorted).map (fun c => outerScan (clientTrades c sorted))).flatten).dedup

/-- `df_sorted.loc[list(matched_indices)].sort_values(by=['Client','Date Time'])`
(line 119): the rows whose identity is in the matched set, ordered by
(client, time). The `.loc` selection consumes only the membership of the
matched set. -/
def selectMatched (sorted : List (ℕ × Trade)) (m : List ℕ) : List (ℕ × Trade) :=
  List.insertionSort tradeLe (sorted.filter (fun p => decide (p.1 ∈ m)))

/-- The whole frequent-pattern detector (lines 98-119) on an indexed batch:
sort by (client, time), run the nested scan per client, select and re-sort
the matched rows. An empty matched set yields the empty table. -/
def detect (batch : List (ℕ × Trade)) : List (ℕ × Trade) :=
  let sorted := List.insertionSort tradeLe batch
  selectMatched sorted (matchedIndices sorted)

/-- The per-run configuration: the sidebar date range (lines 42-43, as day
numbers), the selected securities (lines 48-51, after the `"All"`
resolution), and the publication radio choice per security (line 57). -/
structure Config where
  fromDate : Int
  toDate : Int
  securities : List String
  choice : String → Sensitivity

/-- `df['Date']` of a row: the calendar date (day number) of its datetime. -/
def tradeDate (t : Trade) : Int := Int.fdiv t.time 86400

/-- The filter block of lines 62-64: keep rows whose date is within
`[from_date, to_date]` and whose security is selected. -/
def applyFilters (cfg : Config) (batch : List Trade) : List (ℕ × Trade) :=
  (batch.enum.filter
      (fun p => decide (cfg.fromDate ≤ tradeDate p.2) && decide (tradeDate p.2 ≤ cfg.toDate))).filter
    (fun p => decide (p.2.security ∈ cfg.securities))

/-- The five result tables plus the consolidated table of the report. -/
structure Report where
  directors : List (ℕ × Trade)
  shareholders : List (ℕ × Trade)
  board : List (ℕ × Trade)
  pubAlerts : List (ℕ × Trade)
  freq : List (ℕ × Trade)
  consolidated : List (ℕ × Trade)
  deriving DecidableEq, Repr

/-- The engine (lines 62-126): filter, classify (line 67), take the insider
rows (line 72), partition them by category (lines 76-83), flag
publication-sensitive insider trades (lines 87-94), detect frequent
patterns over the whole filtered batch (lines 98-119), and the consolidated
insider table (lines 124-126). -/
def runEngine (cfg : Config) (batch : List Trade) : Report :=
  let df := applyFilters cfg batch
  let insiders := df.filter (fun p => (watchType p.2.client).isSome)
  let pubT := buildPubTypes cfg.choice
  { directors := insiders.filter (fun p => decide (watchType p.2.client = some "Director"))
    shareholders :=
      insiders.filter (fun p => decide (watchType p.2.client = some "≥5% Shareholder"))
    board := insiders.filter (fun p => decide (watchType p.2.client = some "Board Member"))
    pubAlerts := insiders.filter (fun p => (publicationFlag pubT p.2).isSome)
    freq := detect df
    consolidated := insiders }

/-- A pair of rows qualifies for the detector: day difference within the
window and the price/quantity/opposite-side test passes. -/
def qualifies (a b : ℕ × Trade) : Prop :=
  dayDiff a.2.time b.2.time ≤ 3 ∧ matchTest a.2 b.2 = true

instance : ∀ a b : ℕ × Trade, Decidable (qualifies a b) := fun a b => by
  unfold qualifies; infer_instance

/-- Time comparison of indexed rows. -/
def timeLe (a b : ℕ × Trade) : Prop := a.2.time ≤ b.2.time

/-- A buy of `quantity 100` at price `10` by client `C1` on day `d`
(same time of day each day). -/
def buyOn (d : Int) : Trade := ⟨"C1", "SEC", "Buy", 10, 100, d * 86400⟩

/-- The matching sell, `quantity 100` at price `10`, on day `d`. -/
def sellOn (d : Int) : Trade := ⟨"C1", "SEC", "Sell", 10, 100, d * 86400⟩

/-- Scenario A batch with the sell on day 3. -/
def scenarioDay3 : List Trade := [buyOn 0, sellOn 3]

/-- Scenario A batch with the sell on day 4. -/
def scenarioDay4 : List Trade := [buyOn 0, sellOn 4]

/-- Two same-client trades in two different securities, equal price and
quantity, opposite sides, same timestamp. -/
def crossSecBuy : Trade := ⟨"A", "S1", "Buy", 10, 100, 0⟩

/-- The matching sell in the other security. -/
def crossSecSell : Trade := ⟨"A", "S2", "Sell", 10, 100, 0⟩

/-- A configuration selecting days 0-9, securities `SEC` and `X`, with
`Good` news declared on `X`. -/
def wCfg : Config :=
  ⟨0, 9, ["SEC", "X"], fun s => if s = "X" then Sensitivity.good else Sensitivity.sensNone⟩

/-- A director's buy of the `Good`-news security `X` on day 0. -/
def directorBuy : Trade := ⟨"ET87CBECETA00002", "X", "Buy", 10, 100, 0⟩

theorem strLt_irrefl (a : String) : ¬ strLt a a := charListIrrefl.irrefl a.data

theorem dayDiff_eq_ediv {t1 t2 : Int} (h : t1 ≤ t2) : dayDiff t1 t2 = (t2 - t1) / 86400 := by
  unfold dayDiff daysPart
  rw [Int.fdiv_eq_ediv _ (by norm_num)]
  exact abs_of_nonneg (Int.ediv_nonneg (sub_nonneg.mpr h) (by norm_num))

theorem dayDiff_mono {t a b : Int} (hta : t ≤ a) (hab : a ≤ b) :
    dayDiff t a ≤ dayDiff t b := by
  rw [dayDiff_eq_ediv hta, dayDiff_eq_ediv (le_trans hta hab)]
  exact Int.ediv_le_ediv (by norm_num) (sub_le_sub_right hab t)

theorem watchType_mem_cases (c : String) :
    watchType c = none ∨ watchType c = some "Director" ∨
      watchType c = some "≥5% Shareholder" ∨ watchType c = some "Board Member" := by
  unfold watchType classify
  split_ifs <;> simp

theorem clientTrades_sorted_time {l : List (ℕ × Trade)} (hs : List.Sorted tradeLe l)
    (c : String) : List.Pairwise timeLe (clientTrades c l) := by
  have h1 : List.Pairwise tradeLe (clientTrades c l) := hs.filter _
  refine h1.imp_of_mem ?_
  intro a b ha hb hab
  have hac : a.2.client = c := by simpa using List.of_mem_filter ha
  have hbc : b.2.client = c := by simpa using List.of_mem_filter hb
  rcases hab with h | h
  · rw [hac, hbc] at h
    exact absurd h (strLt_irrefl c)
  · exact h.2

theorem innerScan_complete (a : ℕ × Trade) (js : List (ℕ × Trade))
    (hle : ∀ x ∈ js, a.2.time ≤ x.2.time) (hp : List.Pairwise timeLe js)
    (k : ℕ) (hk : k < js.length) (hq : qualifies a (js.get ⟨k, hk⟩)) :
    a.1 ∈ innerScan a js ∧ (js.get ⟨k, hk⟩).1 ∈ innerScan a js := by
  induction js generalizing k with
  | nil => simp at hk
  | cons b rest ih =>
    cases k with
    | zero =>
      have hd : dayDiff a.2.time b.2.time ≤ 3 := hq.1
      have hm : matchTest a.2 b.2 = true := hq.2
      simp [innerScan, hd, hm]
    | succ k' =>
      have hk' : k' < rest.length := Nat.lt_of_succ_lt_succ hk
      have hq' : qualifies a (rest.get ⟨k', hk'⟩) := hq
      have hab : a.2.time ≤ b.2.time := hle b (List.mem_cons_self b rest)
      have hbt : timeLe b (rest.get ⟨k', hk'⟩) :=
        (List.pairwise_cons.mp hp).1 _ (List.get_mem rest k' hk')
      have hd : dayDiff a.2.time b.2.time ≤ 3 :=
        le_trans (dayDiff_mono hab hbt) hq'.1
      have hrest := ih (fun x hx => hle x (List.mem_cons_of_mem _ hx))
        (List.Pairwise.of_cons hp) k' hk' hq'
      constructor
      · simp only [innerScan, if_pos hd]
        exact List.mem_append.mpr (Or.inr hrest.1)
      · simp only [innerScan, if_pos hd]
        exact List.mem_append.mpr (Or.inr hrest.2)

theorem outerScan_complete (l : List (ℕ × Trade)) (hp : List.Pairwise timeLe l)
    (i j : ℕ) (hij : i < j) (hj : j < l.length)
    (hq : qualifies (l.get ⟨i, lt_trans hij hj⟩) (l.get ⟨j, hj⟩)) :
    (l.get ⟨i, lt_trans hij hj⟩).1 ∈ outerScan l ∧ (l.get ⟨j, hj⟩).1 ∈ outerScan l := by
  induction l generalizing i j with
  | nil => simp at hj
  | cons a rest ih =>
    cases i with
    | zero =>
      cases j with
      | zero => exact absurd hij (lt_irrefl 0)
      | succ j' =>
        have hle : ∀ x ∈ rest, a.2.time ≤ x.2.time :=
          fun x hx => (List.pairwise_cons.mp hp).1 x hx
        have h := innerScan_complete a rest hle (List.Pairwise.of_cons hp) j'
          (Nat.lt_of_succ_lt_succ hj) hq
        exact ⟨List.mem_append.mpr (Or.inl h.1), List.mem_append.mpr (Or.inl h.2)⟩
    | succ i' =>
      cases j with
      | zero => exact absurd hij (by omega)
      | succ j' =>
        have h := ih (List.Pairwise.of_cons hp) i' j' (Nat.lt_of_succ_lt_succ hij)
          (Nat.lt_of_succ_lt_succ hj) hq
        exact ⟨List.mem_append.mpr (Or.inr h.1), List.mem_append.mpr (Or.inr h.2)⟩

theorem outerScan_subset_matched {sorted : List (ℕ × Trade)} {c : String} {x : ℕ}
    (hne : clientTrades c sorted ≠ []) (hx : x ∈ outerScan (clientTrades c sorted)) :
    x ∈ matchedIndices sorted := by
  unfold matchedIndices
  rw [List.mem_dedup]
  apply List.mem_flatten.mpr
  refine ⟨outerScan (clientTrades c sorted), ?_, hx⟩
  apply List.mem_map_of_mem
  unfold clientsOf
  rw [List.mem_dedup]
  obtain ⟨p, hp⟩ := List.exists_mem_of_ne_nil _ hne
  have hps : p ∈ sorted := List.mem_of_mem_filter hp
  have hpc : p.2.client = c := by simpa using List.of_mem_filter hp
  exact hpc ▸ List.mem_map_of_mem _ hps

theorem innerScan_sound {a : ℕ × Trade} {js : List (ℕ × Trade)} {x : ℕ}
    (hx : x ∈ innerScan a js) :
    ∃ b ∈ js, qualifies a b ∧ (x = a.1 ∨ x = b.1) := by
  induction js with
  | nil => simp [innerScan] at hx
  | cons b rest ih =>
    by_cases hd : dayDiff a.2.time b.2.time ≤ 3
    · simp only [innerScan, if_pos hd] at hx
      rcases List.mem_append.mp hx with h | h
      · by_cases hm : matchTest a.2 b.2 = true
        · rw [if_pos hm] at h
          refine ⟨b, List.mem_cons_self b rest, ⟨hd, hm⟩, ?_⟩
          simpa using h
        · rw [if_neg hm] at h
          simp at h
      · obtain ⟨b', hb', hq, hx'⟩ := ih h
        exact ⟨b', List.mem_cons_of_mem _ hb', hq, hx'⟩
    · simp only [innerScan, if_neg hd] at hx
      simp at hx

theorem outerScan_sound {l : List (ℕ × Trade)} {x : ℕ} (hx : x ∈ outerScan l) :
    ∃ a ∈ l, ∃ b ∈ l, qualifies a b ∧ (x = a.1 ∨ x = b.1) := by
  induction l with
  | nil => simp [outerScan] at hx
  | cons a rest ih =>
    simp only [outerScan] at hx
    rcases List.mem_append.mp hx with h | h
    · obtain ⟨b, hb, hq, hx'⟩ := innerScan_sound h
      exact ⟨a, List.mem_cons_self a rest, b, List.mem_cons_of_mem _ hb, hq, hx'⟩
    · obtain ⟨a', ha', b', hb', hq, hx'⟩ := ih h
      exact ⟨a', List.mem_cons_of_mem _ ha', b', List.mem_cons_of_mem _ hb', hq, hx'⟩

theorem qualifies_ne {a b : ℕ × Trade} (hq : qualifies a b) : a.2 ≠ b.2 := by
  intro he
  have hm := hq.2
  rw [he] at hm
  simp [matchTest] at hm

/-- C1: for every client partition of a (client, time)-sorted batch, the
early-exit scan omits no qualifying pair: for all positions `i < j` in the
partition whose rows have day-difference ≤ 3, equal price, equal quantity,
and case-insensitively different sides, both row identities are in
`matched_indices` — both members of the pair are flagged, whichever of the
two the outer loop reached first. -/
theorem detector_early_exit_no_omission
    (sorted : List (ℕ × Trade)) (hs : List.Sorted tradeLe sorted) (c : String)
    (i j : ℕ) (hij : i < j) (hj : j < (clientTrades c sorted).length)
    (hq : qualifies ((clientTrades c sorted).get ⟨i, lt_trans hij hj⟩)
      ((clientTrades c sorted).get ⟨j, hj⟩)) :
    ((clientTrades c sorted).get ⟨i, lt_trans hij hj⟩).1 ∈ matchedIndices sorted ∧
      ((clientTrades c sorted).get ⟨j, hj⟩).1 ∈ matchedIndices sorted := by
  have hp := clientTrades_sorted_time hs c
  have h := outerScan_complete (clientTrades c sorted) hp i j hij hj hq
  have hne : clientTrades c sorted ≠ [] := by
    intro he
    rw [he] at hj
    simp at hj
  exact ⟨outerScan_subset_matched hne h.1, outerScan_subset_matched hne h.2⟩

theorem detector_early_exit_no_omission_witness :
    (0 : ℕ) ∈ matchedIndices (List.insertionSort tradeLe scenarioDay3.enum) ∧
      (1 : ℕ) ∈ matchedIndices (List.insertionSort tradeLe scenarioDay3.enum) := by
  have h := detector_early_exit_no_omission (List.insertionSort tradeLe scenarioDay3.enum)
    (by decide) "C1" 0 1 (by decide) (by decide) (by decide)
  have e0 : ((clientTrades "C1" (List.insertionSort tradeLe scenarioDay3.enum)).get
      ⟨0, by decide⟩).1 = 0 := by decide
  have e1 : ((clientTrades "C1" (List.insertionSort tradeLe scenarioDay3.enum)).get
      ⟨1, by decide⟩).1 = 1 := by decide
  exact ⟨e0 ▸ h.1, e1 ▸ h.2⟩

/-- C2: the detector's window is the timestamp difference truncated to whole
days (for time-ordered rows it is the floor of the elapsed seconds over
86400, so a 71-hour gap counts as 2 days), a pair is flagged exactly when
that truncated difference is ≤ 3 and the price/quantity/opposite-side test
passes, and in Scenario A the day-0 buy and day-3 sell are both flagged
while with the sell moved to day 4 the table is empty. -/
theorem freq_window_day_truncation :
    (∀ t1 t2 : Int, t1 ≤ t2 → dayDiff t1 t2 = (t2 - t1) / 86400) ∧
    dayDiff 0 (71 * 3600) = 2 ∧
    (∀ a b : ℕ × Trade,
      (a.1 ∈ innerScan a [b] ∧ b.1 ∈ innerScan a [b]) ↔
        (dayDiff a.2.time b.2.time ≤ 3 ∧ matchTest a.2 b.2 = true)) ∧
    ((0, buyOn 0) ∈ detect scenarioDay3.enum ∧ (1, sellOn 3) ∈ detect scenarioDay3.enum) ∧
    detect scenarioDay4.enum = [] := by
  refine ⟨fun t1 t2 h => dayDiff_eq_ediv h, by decide, ?_, by decide, by decide⟩
  intro a b
  by_cases hd : dayDiff a.2.time b.2.time ≤ 3
  · by_cases hm : matchTest a.2 b.2 = true
    · simp [innerScan, hd, hm]
    · simp [innerScan, hd, hm]
  · simp [innerScan, hd]

theorem freq_window_day_truncation_witness :
    (0 : Int) ≤ 71 * 3600 ∧ dayDiff 0 (71 * 3600) = (71 * 3600 - 0) / 86400 :=
  ⟨by decide, freq_window_day_truncation.1 0 (71 * 3600) (by decide)⟩

/-- C3 counterexample: with a single client trading two different securities
at equal price and quantity on opposite sides at the same timestamp, the
detector flags both rows, so a matched pair may span two securities. -/
theorem freq_same_security_counterexample :
    (0, crossSecBuy) ∈ detect [crossSecBuy, crossSecSell].enum ∧
      (1, crossSecSell) ∈ detect [crossSecBuy, crossSecSell].enum ∧
      crossSecBuy.security ≠ crossSecSell.security := by decide

/-- C3 amended: every identity flagged by the detector comes from a pair of
distinct rows of the same client that qualifies (day window ≤ 3, equal price
and quantity, case-insensitively opposite sides); the detector never
compares securities, so the pair need not share one. -/
theorem freq_matched_same_client (sorted : List (ℕ × Trade)) (x : ℕ)
    (hx : x ∈ matchedIndices sorted) :
    ∃ a, a ∈ sorted ∧ ∃ b, b ∈ sorted ∧ a.2.client = b.2.client ∧ a.2 ≠ b.2 ∧
      qualifies a b ∧ (x = a.1 ∨ x = b.1) := by
  unfold matchedIndices at hx
  rw [List.mem_dedup] at hx
  obtain ⟨lst, hlst, hxl⟩ := List.mem_flatten.mp hx
  obtain ⟨c, hc, rfl⟩ := List.mem_map.mp hlst
  obtain ⟨a, ha, b, hb, hq, hx'⟩ := outerScan_sound hxl
  have hac : a.2.client = c := by simpa using List.of_mem_filter ha
  have hbc : b.2.client = c := by simpa using List.of_mem_filter hb
  exact ⟨a, List.mem_of_mem_filter ha, b, List.mem_of_mem_filter hb,
    hac.trans hbc.symm, qualifies_ne hq, hq, hx'⟩

theorem freq_matched_same_client_witness :
    (0 : ℕ) ∈ matchedIndices (List.insertionSort tradeLe [crossSecBuy, crossSecSell].enum) ∧
      ∃ a, a ∈ List.insertionSort tradeLe [crossSecBuy, crossSecSell].enum ∧ ∃ b,
        b ∈ List.insertionSort tradeLe [crossSecBuy, crossSecSell].enum ∧
        a.2.client = b.2.client ∧ a.2 ≠ b.2 ∧ qualifies a b ∧ ((0 : ℕ) = a.1 ∨ (0 : ℕ) = b.1) :=
  ⟨by decide, freq_matched_same_client _ 0 (by decide)⟩

/-- C4: the classifier is a total function with the fixed check order
Director, then ≥5% Shareholder, then Board Member, then null; an identifier
present in several registry sets gets the first-checked role, and a client
classified null appears in none of the insider tables of the report. -/
theorem classifier_check_order (dirs shs brd : List String) (c : String) :
    (c ∈ dirs → classify dirs shs brd c = some "Director") ∧
    (c ∉ dirs → c ∈ shs → classify dirs shs brd c = some "≥5% Shareholder") ∧
    (c ∉ dirs → c ∉ shs → c ∈ brd → classify dirs shs brd c = some "Board Member") ∧
    (c ∉ dirs → c ∉ shs → c ∉ brd → classify dirs shs brd c = none) ∧
    (∀ cfg : Config, ∀ batch : List Trade, ∀ p : ℕ × Trade,
      watchType p.2.client = none →
        p ∉ (runEngine cfg batch).consolidated ∧ p ∉ (runEngine cfg batch).directors ∧
          p ∉ (runEngine cfg batch).shareholders ∧ p ∉ (runEngine cfg batch).board ∧
          p ∉ (runEngine cfg batch).pubAlerts) := by
  refine ⟨fun h1 => by simp [classify, h1],
    fun h1 h2 => by simp [classify, h1, h2],
    fun h1 h2 h3 => by simp [classify, h1, h2, h3],
    fun h1 h2 h3 => by simp [classify, h1, h2, h3], ?_⟩
  intro cfg batch p hnone
  have hins : p ∉ (applyFilters cfg batch).filter (fun q => (watchType q.2.client).isSome) := by
    intro h
    have := (List.mem_filter.mp h).2
    rw [hnone] at this
    simp at this
  refine ⟨hins, ?_, ?_, ?_, ?_⟩ <;>
    exact fun h => hins (List.mem_filter.mp h).1

theorem classifier_check_order_witness :
    "X" ∈ ["X"] ∧ classify ["X"] ["X"] ["X"] "X" = some "Director" :=
  ⟨by decide, (classifier_check_order ["X"] ["X"] ["X"] "X").1 (by decide)⟩

/-- C5: for any per-security choice and any trade, the correlator returns the
Good News Buy Alert exactly when the security's choice is Good and the
lowercased side is "buy", the Bad News Sell Alert exactly when the choice is
Bad and the lowercased side is "sell", and no flag in every other case — in
particular whenever the security's choice is None (the security is then
absent from the `publication_types` dict). -/
theorem publication_flag_rule_table (choice : String → Sensitivity) (t : Trade) :
    (publicationFlag (buildPubTypes choice) t = some "Good News Buy Alert" ↔
      choice t.security = Sensitivity.good ∧ strLower t.side = "buy") ∧
    (publicationFlag (buildPubTypes choice) t = some "Bad News Sell Alert" ↔
      choice t.security = Sensitivity.bad ∧ strLower t.side = "sell") ∧
    (choice t.security = Sensitivity.sensNone →
      publicationFlag (buildPubTypes choice) t = none) ∧
    (publicationFlag (buildPubTypes choice) t = none ∨
      publicationFlag (buildPubTypes choice) t = some "Good News Buy Alert" ∨
      publicationFlag (buildPubTypes choice) t = some "Bad News Sell Alert") := by
  cases hc : choice t.security with
  | sensNone => simp [publicationFlag, buildPubTypes, hc]
  | good =>
    by_cases hb : strLower t.side = "buy" <;> simp [publicationFlag, buildPubTypes, hc, hb]
  | bad =>
    by_cases hs : strLower t.side = "sell" <;> simp [publicationFlag, buildPubTypes, hc, hs]

theorem publication_flag_rule_table_witness :
    publicationFlag (buildPubTypes (fun _ => Sensitivity.sensNone)) directorBuy = none :=
  (publication_flag_rule_table (fun _ => Sensitivity.sensNone) directorBuy).2.2.1 rfl

/-- C6: a row of the publication-sensitive-alert table is always an insider
row: a trade whose client is classified null never receives a publication
flag and never appears in that table, even when its security's sensitivity
and its side match the rule table. -/
theorem pub_alerts_only_insiders (cfg : Config) (batch : List Trade) (p : ℕ × Trade)
    (hp : p ∈ (runEngine cfg batch).pubAlerts) : watchType p.2.client ≠ none := by
  have h1 : p ∈ (applyFilters cfg batch).filter (fun q => (watchType q.2.client).isSome) :=
    (List.mem_filter.mp hp).1
  have h2 := (List.mem_filter.mp h1).2
  intro he
  rw [he] at h2
  simp at h2

theorem pub_alerts_only_insiders_witness :
    (0, directorBuy) ∈ (runEngine wCfg [directorBuy]).pubAlerts ∧
      watchType (0, directorBuy).2.client ≠ none :=
  ⟨by decide, pub_alerts_only_insiders wCfg [directorBuy] (0, directorBuy) (by decide)⟩

/-- C7: if the batch is empty after the date-range and security filters, the
three category tables, the publication-sensitive-alert table, the
frequent-pattern table and the consolidated table are all empty lists — the
run completes normally with explicit empty results. -/
theorem empty_filter_all_empty (cfg : Config) (batch : List Trade)
    (h : applyFilters cfg batch = []) :
    (runEngine cfg batch).directors = [] ∧ (runEngine cfg batch).shareholders = [] ∧
      (runEngine cfg batch).board = [] ∧ (runEngine cfg batch).pubAlerts = [] ∧
      (runEngine cfg batch).freq = [] ∧ (runEngine cfg batch).consolidated = [] := by
  simp [runEngine, h, detect, selectMatched, matchedIndices, clientsOf]

theorem empty_filter_all_empty_witness :
    applyFilters wCfg [] = [] ∧ (runEngine wCfg []).freq = [] :=
  ⟨rfl, (empty_filter_all_empty wCfg [] rfl).2.2.2.2.1⟩

/-- C8: every row of the consolidated insider table lies in exactly one of
the three category tables (Director / ≥5% Shareholder / Board Member), and
the consolidated table holds exactly the filtered rows with non-null watch
type, independent of publication or pattern flags. -/
theorem consolidated_partition (cfg : Config) (batch : List Trade) (p : ℕ × Trade) :
    (p ∈ (runEngine cfg batch).consolidated →
      ((p ∈ (runEngine cfg batch).directors ∧ p ∉ (runEngine cfg batch).shareholders ∧
          p ∉ (runEngine cfg batch).board) ∨
        (p ∉ (runEngine cfg batch).directors ∧ p ∈ (runEngine cfg batch).shareholders ∧
          p ∉ (runEngine cfg batch).board) ∨
        (p ∉ (runEngine cfg batch).directors ∧ p ∉ (runEngine cfg batch).shareholders ∧
          p ∈ (runEngine cfg batch).board))) ∧
    (p ∈ (runEngine cfg batch).consolidated ↔
      p ∈ applyFilters cfg batch ∧ (watchType p.2.client).isSome = true) := by
  constructor
  · intro hc
    have hw : (watchType p.2.client).isSome = true := (List.mem_filter.mp hc).2
    rcases watchType_mem_cases p.2.client with h | h | h | h
    · rw [h] at hw
      simp at hw
    · refine Or.inl ⟨List.mem_filter.mpr ⟨hc, by rw [h]; decide⟩, ?_, ?_⟩ <;>
        exact fun hm => by
          have hx := (List.mem_filter.mp hm).2
          rw [h] at hx
          simp at hx
    · refine Or.inr (Or.inl ⟨?_, List.mem_filter.mpr ⟨hc, by rw [h]; decide⟩, ?_⟩) <;>
        exact fun hm => by
          have hx := (List.mem_filter.mp hm).2
          rw [h] at hx
          simp at hx
    · refine Or.inr (Or.inr ⟨?_, ?_, List.mem_filter.mpr ⟨hc, by rw [h]; decide⟩⟩) <;>
        exact fun hm => by
          have hx := (List.mem_filter.mp hm).2
          rw [h] at hx
          simp at hx
  · exact List.mem_filter

theorem consolidated_partition_witness :
    (0, directorBuy) ∈ (runEngine wCfg [directorBuy]).directors ∧
      (0, directorBuy) ∉ (runEngine wCfg [directorBuy]).shareholders ∧
      (0, directorBuy) ∉ (runEngine wCfg [directorBuy]).board := by
  have h := (consolidated_partition wCfg [directorBuy] (0, directorBuy)).1 (by decide)
  rcases h with h | h | h
  · exact h
  · exact absurd h.2.1 (by decide)
  · exact absurd h.2.2 (by decide)

/-- C9: the engine is a pure function — equal batch and configuration give
equal reports, table contents and row order included; the matched identities
influence the frequent-pattern table only through set membership (every
reordering of the matched list selects the same final table), and that table
is sorted by (client, timestamp) ascending. -/
theorem engine_deterministic (cfg1 cfg2 : Config) (b1 b2 : List Trade)
    (hc : cfg1 = cfg2) (hb : b1 = b2) :
    runEngine cfg1 b1 = runEngine cfg2 b2 ∧
    List.Sorted tradeLe (runEngine cfg1 b1).freq ∧
    (∀ m : List ℕ,
      m.Perm (matchedIndices (List.insertionSort tradeLe (applyFilters cfg1 b1))) →
      selectMatched (List.insertionSort tradeLe (applyFilters cfg1 b1)) m =
        (runEngine cfg1 b1).freq) := by
  subst hc
  subst hb
  refine ⟨rfl, List.sorted_insertionSort tradeLe _, ?_⟩
  intro m hm
  show List.insertionSort tradeLe _ = List.insertionSort tradeLe _
  have he : (List.insertionSort tradeLe (applyFilters cfg1 b1)).filter
      (fun p => decide (p.1 ∈ m)) =
      (List.insertionSort tradeLe (applyFilters cfg1 b1)).filter
        (fun p => decide
          (p.1 ∈ matchedIndices (List.insertionSort tradeLe (applyFilters cfg1 b1)))) := by
    apply List.filter_congr
    intro q _
    exact decide_eq_decide.mpr hm.mem_iff
  rw [he]

theorem engine_deterministic_witness :
    runEngine wCfg [directorBuy] = runEngine wCfg [directorBuy] :=
  (engine_deterministic wCfg wCfg [directorBuy] [directorBuy] rfl rfl).1

/-- C10: client matching is exact, case-sensitive string equality against the
registry entries: any identifier not literally in a registry list — any
character off, a case change or added whitespace included — is classified
null, while the exact registry entry is classified. -/
theorem client_matching_exact (c : String)
    (h1 : c ∉ directors_accounts) (h2 : c ∉ shareholders_accounts)
    (h3 : c ∉ board_accounts) :
    watchType c = none ∧ watchType "et87cbeceta00002" = none ∧
      watchType "ET87CBECETA00002 " = none ∧
      watchType "ET87CBECETA00002" = some "Director" := by
  refine ⟨?_, by decide, by decide, by decide⟩
  simp [watchType, classify, h1, h2, h3]

theorem client_matching_exact_witness :
    "C1" ∉ directors_accounts ∧ watchType "C1" = none :=
  ⟨by decide, (client_matching_exact "C1" (by decide) (by decide) (by decide)).1⟩
